import Mathlib

/-! Schema data model of `new_org.cpp`.

A shallow embedding of the declarations of `src/new_org.cpp` (the field-type
vocabulary, the two field records, the tagged schema field, the parsed field
and the instruction schema), followed by the cursor, matcher, scanner, encoder
and table construction that the specification describes on top of that data
model and that the source does not contain.
-/

namespace NewOrg

/-! ## Data model (from `src/new_org.cpp`) -/

/-- The C type `unsigned char`: an integer in `0 .. 255`. -/
abbrev UChar : Type := Fin 256

/-- The enumerators of the enumeration `NamedFieldType` (lines 5-17), in
declaration order: the semantic types the source names. The enumeration type
has more values than enumerators; its whole value range is `NamedFieldTypeValue`. -/
inductive NamedFieldType where
  | D
  | W
  | REG
  | MOD
  | RM
  | DISP_LO
  | DISP_HI
  | ADDR_LO
  | ADDR_HI
  | DATA
  | DATA_IF_W
  deriving DecidableEq, Repr

/-- The integer value C assigns to each enumerator of `NamedFieldType`:
the first enumerator is 0 and each next one is the previous plus one. -/
def NamedFieldType.ordinal : NamedFieldType → Nat
  | .D => 0
  | .W => 1
  | .REG => 2
  | .MOD => 3
  | .RM => 4
  | .DISP_LO => 5
  | .DISP_HI => 6
  | .ADDR_LO => 7
  | .ADDR_HI => 8
  | .DATA => 9
  | .DATA_IF_W => 10

/-- The enumerators of `NamedFieldType`, listed in declaration order. -/
def NamedFieldType.all : List NamedFieldType :=
  [.D, .W, .REG, .MOD, .RM, .DISP_LO, .DISP_HI, .ADDR_LO, .ADDR_HI, .DATA, .DATA_IF_W]

/-- The values of the enumeration type `NamedFieldType` (lines 5-17). The
enumeration is unscoped and has no fixed underlying type, so its values are those
of the smallest bit-field that holds every enumerator: the largest enumerator is
10, the bit-field has 4 bits, and the values are 0 .. 15. -/
abbrev NamedFieldTypeValue : Type := Fin 16

/-- The value of the enumeration type that each enumerator denotes. -/
def NamedFieldType.value : NamedFieldType → NamedFieldTypeValue
  | .D => 0
  | .W => 1
  | .REG => 2
  | .MOD => 3
  | .RM => 4
  | .DISP_LO => 5
  | .DISP_HI => 6
  | .ADDR_LO => 7
  | .ADDR_HI => 8
  | .DATA => 9
  | .DATA_IF_W => 10

/-- The struct `NamedField` (lines 19-22). The member `type` is spelled `type_`
because `type` is reserved; it holds one of the eleven enumerators, the other
values of the enumeration type (see `NamedFieldTypeValue`) naming no semantic type. -/
structure NamedField where
  type_ : NamedFieldType
  bit_width : UChar
  deriving DecidableEq, Repr

/-- The struct `LiteralField` (lines 24-27). -/
structure LiteralField where
  bit_width : UChar
  literal_value : UChar
  deriving DecidableEq, Repr

/-- The enumeration `SchemaFieldType` (line 29). -/
inductive SchemaFieldType where
  | NAMED_FIELD
  | LITERAL_FIELD
  deriving DecidableEq, Repr

/-- The integer value C assigns to each enumerator of `SchemaFieldType`. -/
def SchemaFieldType.ordinal : SchemaFieldType → Nat
  | .NAMED_FIELD => 0
  | .LITERAL_FIELD => 1

/-- The values of the enumeration type `SchemaFieldType` (line 29): unscoped, no
fixed underlying type, largest enumerator 1, so a bit-field of 1 bit: 0 and 1. -/
abbrev SchemaFieldTypeValue : Type := Fin 2

/-- The value of the enumeration type that each tag denotes. -/
def SchemaFieldType.value : SchemaFieldType → SchemaFieldTypeValue
  | .NAMED_FIELD => 0
  | .LITERAL_FIELD => 1

/-- The anonymous union of `SchemaField` (lines 33-36): it holds one of its two
members, `named` or `literal`. -/
inductive SchemaFieldUnion where
  | named (named : NamedField)
  | literal (literal : LiteralField)
  deriving DecidableEq, Repr

/-- The struct `SchemaField` as declared (lines 31-37): the tag `type` and the
union `field` are two independent members; nothing in the declaration ties the
tag to the member the union holds. -/
structure SchemaFieldStruct where
  type_ : SchemaFieldType
  field : SchemaFieldUnion
  deriving DecidableEq, Repr

/-- Whether the tag of a schema field names the member its union holds. -/
def SchemaFieldStruct.well_tagged (s : SchemaFieldStruct) : Bool :=
  match s.type_, s.field with
  | .NAMED_FIELD, .named _ => true
  | .LITERAL_FIELD, .literal _ => true
  | _, _ => false

/-- The well-tagged values of the struct `SchemaField` (lines 31-37): a tag
together with the union member that tag names. The struct as declared, which
also admits a tag that does not name the member held, is `SchemaFieldStruct`.
The functions of the specification read the member the tag names, so they are
defined on the well-tagged values. -/
inductive SchemaField where
  | named (named : NamedField)
  | literal (literal : LiteralField)
  deriving DecidableEq, Repr

/-- The member `type` of a `SchemaField`. -/
def SchemaField.type_ : SchemaField → SchemaFieldType
  | .named _ => .NAMED_FIELD
  | .literal _ => .LITERAL_FIELD

/-- The struct value of a well-tagged schema field. -/
def SchemaField.to_struct : SchemaField → SchemaFieldStruct
  | .named n => { type_ := .NAMED_FIELD, field := .named n }
  | .literal l => { type_ := .LITERAL_FIELD, field := .literal l }

/-- The member `bit_width` of whichever union member is active. -/
def SchemaField.bit_width : SchemaField → UChar
  | .named n => n.bit_width
  | .literal l => l.bit_width

/-- The struct `ParsedNamedField` (lines 39-42). -/
structure ParsedNamedField where
  named_field : NamedField
  parsed_value : UChar
  deriving DecidableEq, Repr

/-- The struct `InstructionSchema` (lines 44-49); the C strings and arrays are
finite sequences. -/
structure InstructionSchema where
  mnemonic : String
  identifier_literal : LiteralField
  instruction_schema : List SchemaField
  implied_values : List ParsedNamedField
  deriving DecidableEq, Repr

/-- The literal fields an instruction schema holds: its identifying literal and
the literal entries of its field sequence. -/
def InstructionSchema.literals (s : InstructionSchema) : List LiteralField :=
  s.identifier_literal ::
    s.instruction_schema.filterMap
      (fun f => match f with
        | .literal l => some l
        | .named _ => none)

/-! ## Roles named by the specification -/

/-- The roles the specification lists for a named field, in the order it lists them. -/
inductive FieldRole where
  | Direction
  | Width
  | Register
  | Mode
  | RegisterOrMemory
  | DisplacementLow
  | DisplacementHigh
  | AddressLow
  | AddressHigh
  | Data
  | DataIfWord
  deriving DecidableEq, Repr

/-- Position of a role in the specification's list, counted from 0. -/
def FieldRole.position : FieldRole → Nat
  | .Direction => 0
  | .Width => 1
  | .Register => 2
  | .Mode => 3
  | .RegisterOrMemory => 4
  | .DisplacementLow => 5
  | .DisplacementHigh => 6
  | .AddressLow => 7
  | .AddressHigh => 8
  | .Data => 9
  | .DataIfWord => 10

/-- The role each enumerator of `NamedFieldType` abbreviates. -/
def NamedFieldType.role : NamedFieldType → FieldRole
  | .D => .Direction
  | .W => .Width
  | .REG => .Register
  | .MOD => .Mode
  | .RM => .RegisterOrMemory
  | .DISP_LO => .DisplacementLow
  | .DISP_HI => .DisplacementHigh
  | .ADDR_LO => .AddressLow
  | .ADDR_HI => .AddressHigh
  | .DATA => .Data
  | .DATA_IF_W => .DataIfWord

/-! ## Field classes of the matcher -/

/-- Modelled from the spec: the always-present set of section 4.2, which the
source does not declare: the semantic types whose field is read unconditionally. -/
def always_present : List NamedFieldType :=
  [.D, .W, .REG, .MOD, .RM]

/-- Modelled from the spec: the conditional set of section 4.2, which the source
does not declare: the semantic types whose field is read only when the
conditional-presence predicate holds. -/
def conditional : List NamedFieldType :=
  [.DISP_LO, .DISP_HI, .ADDR_LO, .ADDR_HI, .DATA, .DATA_IF_W]

/-- The values of the enumeration type that lie in the always-present set. -/
def always_present_values : List NamedFieldTypeValue :=
  always_present.map NamedFieldType.value

/-- The values of the enumeration type that lie in the conditional set. -/
def conditional_values : List NamedFieldTypeValue :=
  conditional.map NamedFieldType.value

/-! ## Bit cursor (specification section 4.1) -/

/-- Modelled from the spec: the failures of a match attempt (section 7), absent
from the source. -/
inductive MatchFailure where
  | OutOfBits
  | LiteralMismatch
  deriving DecidableEq, Repr

/-- Modelled from the spec: the construction-time failure of section 7, absent
from the source. -/
inductive SchemaError where
  | InvalidSchema
  deriving DecidableEq, Repr

/-- Modelled from the spec: the Bit Cursor of section 4.1, absent from the
source: a finite byte sequence and a bit offset into it. -/
structure BitCursor where
  bytes : List UChar
  offset : Nat
  deriving DecidableEq, Repr

/-- Modelled from the spec: `remaining_bits()` of section 4.1, absent from the
source: the bits left after the offset. -/
def BitCursor.remaining_bits (c : BitCursor) : Nat :=
  8 * c.bytes.length - c.offset

/-- Modelled from the spec: `mark()` of section 4.1, absent from the source. -/
def BitCursor.mark (c : BitCursor) : Nat :=
  c.offset

/-- Modelled from the spec: `reset(mark)` of section 4.1, absent from the source. -/
def BitCursor.reset (c : BitCursor) (m : Nat) : BitCursor :=
  { c with offset := m }

/-- Modelled from the spec: the bit at stream position `p`, absent from the
source; position 0 is the most significant bit of the first byte
(big-endian-within-byte numbering, section 4.1). -/
def bit_at (bytes : List UChar) (p : Nat) : Nat :=
  ((bytes.getD (p / 8) 0).val / 2 ^ (7 - p % 8)) % 2

/-- Modelled from the spec: the unsigned value of the `width` bits from position
`off` on, absent from the source; the earliest bit is the most significant
(section 4.1). -/
def bits_value (bytes : List UChar) (off : Nat) : Nat → Nat
  | 0 => 0
  | w + 1 => 2 * bits_value bytes off w + bit_at bytes (off + w)

/-- Modelled from the spec: `read(width)` of section 4.1, absent from the source:
fails with `OutOfBits`, leaving the cursor where it is, when fewer than `width`
bits remain; otherwise returns the value and advances the offset by `width`. -/
def BitCursor.read (c : BitCursor) (width : Nat) : Except MatchFailure Nat × BitCursor :=
  if c.remaining_bits < width then
    (.error .OutOfBits, c)
  else
    (.ok (bits_value c.bytes c.offset width), { c with offset := c.offset + width })

/-! ## Matcher (specification section 4.2) -/

/-- Modelled from the spec: the result of a successful match (section 4.2),
absent from the source: mnemonic, the parsed named fields in order, and the
byte length consumed. -/
structure ParsedInstruction where
  mnemonic : String
  fields : List ParsedNamedField
  byte_length : Nat
  deriving DecidableEq, Repr

/-- Modelled from the spec: the lookup of a recorded field by semantic type
(section 4.2, "keyed by semantic_type"), absent from the source. -/
def recorded (t : NamedFieldType) (caps : List ParsedNamedField) : Option UChar :=
  (caps.find? (fun p => p.named_field.type_ = t)).map (fun p => p.parsed_value)

/-- Modelled from the spec: a parsed field of the source's record type, absent
as a function from the source; the value is stored in an `unsigned char`, so it
is taken modulo 256. -/
def record_field (n : NamedField) (v : Nat) : ParsedNamedField :=
  { named_field := n, parsed_value := ⟨v % 256, Nat.mod_lt v (by decide)⟩ }

/-- Modelled from the spec: the conditional-presence predicate of section 4.2,
absent from the source. The specification fixes MOD = 0b10 as two-byte
displacement and MOD = 0b11 as register mode; MOD = 0b01 as one-byte
displacement and MOD = 0b00 with RM = 0b110 as direct addressing are the
encodings of the 8086 this repository disassembles. Register access is
MOD = 0b11, which the displacement cases exclude. -/
def conditional_presence (t : NamedFieldType) (caps : List ParsedNamedField) : Bool :=
  match t with
  | .DISP_LO => recorded .MOD caps == some 1 || recorded .MOD caps == some 2
  | .DISP_HI => recorded .MOD caps == some 2
  | .ADDR_LO => recorded .MOD caps == some 0 && recorded .RM caps == some 6
  | .ADDR_HI => recorded .MOD caps == some 0 && recorded .RM caps == some 6
  | .DATA => true
  | .DATA_IF_W => recorded .W caps == some 1
  | _ => true

/-- Modelled from the spec: the field loop of `try_match` (section 4.2), absent
from the source. `present` is the conditional-presence predicate, `caps` the
fields recorded so far; the cursor returned is the one the loop stopped at. -/
def match_fields (present : NamedFieldType → List ParsedNamedField → Bool) :
    List SchemaField → List ParsedNamedField → BitCursor →
      Except MatchFailure (List ParsedNamedField) × BitCursor
  | [], caps, cur => (.ok caps, cur)
  | .literal l :: rest, caps, cur =>
    match cur.read l.bit_width.val with
    | (.error e, c) => (.error e, c)
    | (.ok v, c) =>
      if v = l.literal_value.val then match_fields present rest caps c
      else (.error .LiteralMismatch, c)
  | .named n :: rest, caps, cur =>
    if n.type_ ∈ always_present || present n.type_ caps then
      match cur.read n.bit_width.val with
      | (.error e, c) => (.error e, c)
      | (.ok v, c) => match_fields present rest (caps ++ [record_field n v]) c
    else match_fields present rest caps cur

/-- Modelled from the spec: the implied values of section 4.2, absent as a
function from the source: every implied field whose semantic type was not
captured from the stream is added to the result. -/
def apply_implied (caps implied : List ParsedNamedField) : List ParsedNamedField :=
  caps ++ implied.filter (fun p => (recorded p.named_field.type_ caps).isNone)

/-- Modelled from the spec: `try_match` of section 4.2, absent from the source.
It takes a mark at entry, runs the field loop, and on failure resets the cursor
to the mark; on success the cursor stays advanced and the byte length is the
number of bytes the consumed bits occupy. -/
def try_match (present : NamedFieldType → List ParsedNamedField → Bool)
    (schema : InstructionSchema) (cur : BitCursor) :
    Except MatchFailure ParsedInstruction × BitCursor :=
  let m := cur.mark
  match match_fields present schema.instruction_schema [] cur with
  | (.error e, c) => (.error e, c.reset m)
  | (.ok caps, c) =>
    (.ok { mnemonic := schema.mnemonic
           fields := apply_implied caps schema.implied_values
           byte_length := (c.offset - m + 7) / 8 }, c)

/-! ## Table construction (specification sections 3, 7 and 8) -/

/-- The bit widths of a field sequence, in order. -/
def field_widths (fields : List SchemaField) : List Nat :=
  fields.map (fun f => f.bit_width.val)

/-- Modelled from the spec: the sum of the widths of the fields lying within
byte `b` (section 3), absent from the source; `start` is the bit position of the
first field, and a field lies within the byte its first bit is in. -/
def widths_in_byte : List Nat → Nat → Nat → Nat
  | [], _, _ => 0
  | w :: rest, start, b =>
    (if start / 8 = b then w else 0) + widths_in_byte rest (start + w) b

/-- Modelled from the spec: the number of bytes a field sequence consumes,
absent from the source. -/
def consumed_bytes (ws : List Nat) : Nat :=
  (ws.sum + 7) / 8

/-- Modelled from the spec: the byte-sum invariant of sections 3 and 8, absent
from the source: within each consumed byte the field widths sum to exactly 8. -/
def byte_sum_ok (ws : List Nat) : Bool :=
  (List.range (consumed_bytes ws)).all (fun b => widths_in_byte ws 0 b == 8)

/-- Modelled from the spec: "literal_value must fit in bit_width bits"
(section 3), absent as a check from the source. -/
def literal_fits (l : LiteralField) : Bool :=
  decide (l.literal_value.val < 2 ^ l.bit_width.val)

/-- Modelled from the spec: the construction-time validation of one schema
(section 7), absent from the source. -/
def validate_schema (s : InstructionSchema) : Except SchemaError Unit :=
  if byte_sum_ok (field_widths s.instruction_schema) && s.literals.all literal_fits then
    .ok ()
  else
    .error .InvalidSchema

/-- Modelled from the spec: table construction (sections 3 and 8), absent from
the source (`main` is empty): the table is the given schemas in their order,
and construction fails with `InvalidSchema` when one of them is invalid. -/
def build_table : List InstructionSchema → Except SchemaError (List InstructionSchema)
  | [] => .ok []
  | s :: rest =>
    match validate_schema s with
    | .error e => .error e
    | .ok () =>
      match build_table rest with
      | .error e => .error e
      | .ok t => .ok (s :: t)

/-- The byte-sum invariant of sections 3 and 8 as a proposition: within each
consumed byte the field widths sum to exactly 8. -/
def ByteSumInvariant (ws : List Nat) : Prop :=
  ∀ b, b < consumed_bytes ws → widths_in_byte ws 0 b = 8

/-- The first field boundary at or after bit `m`, for fields of widths `ws` laid
out from bit `s` on; the end of the layout when no field starts that late. -/
def boundary_from : List Nat → Nat → Nat → Nat
  | [], s, _ => s
  | w :: rest, s, m => if m ≤ s then s else boundary_from rest (s + w) m

/-- The specification's declarative form of the invariant: the widths sum to
whole bytes and every byte boundary up to the end is a field boundary. -/
def ByteAligned (ws : List Nat) : Prop :=
  ws.sum % 8 = 0 ∧ ∀ k, 8 * k ≤ ws.sum → ∃ n, (ws.take n).sum = 8 * k

/-! ## The specification's example schema -/

/-- The field sequence of the specification's concrete scenarios (section 8). -/
def example_fields : List SchemaField :=
  [ .literal { bit_width := 6, literal_value := 0b100010 },
    .named { type_ := .D, bit_width := 1 },
    .named { type_ := .W, bit_width := 1 },
    .named { type_ := .MOD, bit_width := 2 },
    .named { type_ := .REG, bit_width := 3 },
    .named { type_ := .RM, bit_width := 3 } ]

/-- An instruction schema with the example field sequence and no implied values. -/
def example_schema (mnemonic : String) (identifier : LiteralField) : InstructionSchema :=
  { mnemonic := mnemonic
    identifier_literal := identifier
    instruction_schema := example_fields
    implied_values := [] }

/-- The example field sequence followed by the two displacement bytes. -/
def example_fields_disp : List SchemaField :=
  example_fields ++
    [ .named { type_ := .DISP_LO, bit_width := 8 },
      .named { type_ := .DISP_HI, bit_width := 8 } ]

/-- An instruction schema with the displacement-extended field sequence. -/
def example_schema_disp (mnemonic : String) (identifier : LiteralField) : InstructionSchema :=
  { mnemonic := mnemonic
    identifier_literal := identifier
    instruction_schema := example_fields_disp
    implied_values := [] }

/-- The displacement-extended schema under the mnemonic `mov`. -/
def scenario_schema_disp : InstructionSchema :=
  example_schema_disp "mov" { bit_width := 6, literal_value := 0b100010 }

/-- A cursor over the displacement scenario's bytes with the last byte missing. -/
def truncated_cursor : BitCursor :=
  { bytes := [0b10001001, 0b10000001, 0x34], offset := 0 }

/-- A cursor at the second byte of a stream whose second byte is not the opcode. -/
def mismatch_cursor : BitCursor :=
  { bytes := [0b10001001, 0b10001101, 0x34, 0x12], offset := 8 }

/-- The bytes of the register-mode scenario. -/
def register_mode_bytes : List UChar :=
  [0b10001001, 0b11000001]

/-- A `LiteralField` whose value needs two bits but whose width is one. -/
def narrow_literal : LiteralField :=
  { bit_width := 1, literal_value := 2 }

/-- An instruction schema built around `narrow_literal`. -/
def narrow_literal_schema : InstructionSchema :=
  { mnemonic := "x"
    identifier_literal := narrow_literal
    instruction_schema := [.literal narrow_literal]
    implied_values := [] }

/-- A `ParsedNamedField` whose value needs two bits but whose width is one. -/
def narrow_parsed : ParsedNamedField :=
  { named_field := { type_ := .D, bit_width := 1 }, parsed_value := 2 }

/-- An instruction schema whose implied values hold `narrow_parsed`. -/
def narrow_parsed_schema : InstructionSchema :=
  { mnemonic := "x"
    identifier_literal := { bit_width := 8, literal_value := 0 }
    instruction_schema := []
    implied_values := [narrow_parsed] }

/-- A schema whose 8-bit field straddles the boundary between its two bytes. -/
def straddling_schema : InstructionSchema :=
  { mnemonic := "x"
    identifier_literal := { bit_width := 4, literal_value := 0b1011 }
    instruction_schema :=
      [ .literal { bit_width := 4, literal_value := 0b1011 },
        .named { type_ := .DATA, bit_width := 8 },
        .named { type_ := .REG, bit_width := 4 } ]
    implied_values := [] }

/-- A value of the struct `SchemaField` whose tag says `NAMED_FIELD` while its
union holds a literal. -/
def mistagged_field : SchemaFieldStruct :=
  { type_ := .NAMED_FIELD, field := .literal { bit_width := 6, literal_value := 0b100010 } }

/-- A value of the struct `SchemaField` whose tag names the member held. -/
def tagged_literal_field : SchemaFieldStruct :=
  { type_ := .LITERAL_FIELD, field := .literal { bit_width := 6, literal_value := 0b100010 } }

/-- A `NamedField` of width 9. -/
def nine_bit_named : NamedField :=
  { type_ := .D, bit_width := 9 }

/-- A `LiteralField` of width 12. -/
def twelve_bit_literal : LiteralField :=
  { bit_width := 12, literal_value := 0 }

/-! ## The entry point (from `src/new_org.cpp`) -/

/-- What a run of the program can observe or change: the input not yet read,
the output written so far, and the schema tables constructed so far. -/
structure ProgramState where
  input : List UChar
  output : List UChar
  tables : List (List InstructionSchema)
  deriving DecidableEq, Repr

/-- The function `main` (line 51): its body is the empty block, so no statement
touches the state, and control flowing off the end of `main` returns 0. -/
def main (s : ProgramState) : Int × ProgramState :=
  (0, s)

/-! ## Table scanner (specification section 4.3) -/

/-- C1, as stated, fails: 11 is a value of the enumeration type `NamedFieldType`
and no enumerator denotes it, so not every value of the type is one of the
eleven. -/
theorem namedFieldType_value_outside_enumerators :
    (11 : NamedFieldTypeValue).val = 11 ∧
      (∀ t ∈ NamedFieldType.all, t.value ≠ (11 : NamedFieldTypeValue)) ∧
      (∀ t : NamedFieldType, t.value ≠ (11 : NamedFieldTypeValue)) ∧
      ¬ (∀ v : NamedFieldTypeValue, ∃ t : NamedFieldType, t.value = v) := by
  have h : ∀ t : NamedFieldType, t.value ≠ (11 : NamedFieldTypeValue) := by
    intro t
    cases t <;> decide
  refine ⟨rfl, fun t _ => h t, h, ?_⟩
  intro hall
  obtain ⟨t, ht⟩ := hall 11
  exact h t ht

/-- C1, amended: `NamedFieldType` has exactly eleven pairwise-distinct
enumerators, in declaration order D, W, REG, MOD, RM, DISP_LO, DISP_HI, ADDR_LO,
ADDR_HI, DATA, DATA_IF_W with ordinals 0 through 10, corresponding one-to-one and
in the same order to the specification's eleven roles; the type has the sixteen
values 0 .. 15, distinct enumerators denote distinct values, and a value of the
type is one of the eleven exactly when it is below 11. -/
theorem namedFieldType_eleven_enumerators :
    NamedFieldType.all =
        [.D, .W, .REG, .MOD, .RM, .DISP_LO, .DISP_HI, .ADDR_LO, .ADDR_HI, .DATA, .DATA_IF_W] ∧
      NamedFieldType.all.length = 11 ∧
      NamedFieldType.all.Nodup ∧
      NamedFieldType.all.map NamedFieldType.ordinal = List.range 11 ∧
      NamedFieldType.all.map NamedFieldType.role =
        [.Direction, .Width, .Register, .Mode, .RegisterOrMemory, .DisplacementLow,
          .DisplacementHigh, .AddressLow, .AddressHigh, .Data, .DataIfWord] ∧
      (∀ t : NamedFieldType, t.role.position = t.ordinal) ∧
      Function.Bijective NamedFieldType.role ∧
      (∀ t : NamedFieldType, t.value.val = t.ordinal) ∧
      Function.Injective NamedFieldType.value ∧
      Fintype.card NamedFieldTypeValue = 16 ∧
      (∀ v : NamedFieldTypeValue,
        (∃ t ∈ NamedFieldType.all, t.value = v) ↔ v.val < 11) := by
  refine ⟨rfl, rfl, by decide, by decide, rfl, ?_, ⟨?_, ?_⟩, ?_, ?_, by simp, ?_⟩
  · intro t
    cases t <;> rfl
  · intro a b h
    cases a <;> cases b <;> first | rfl | cases h
  · intro r
    cases r
    · exact ⟨.D, rfl⟩
    · exact ⟨.W, rfl⟩
    · exact ⟨.REG, rfl⟩
    · exact ⟨.MOD, rfl⟩
    · exact ⟨.RM, rfl⟩
    · exact ⟨.DISP_LO, rfl⟩
    · exact ⟨.DISP_HI, rfl⟩
    · exact ⟨.ADDR_LO, rfl⟩
    · exact ⟨.ADDR_HI, rfl⟩
    · exact ⟨.DATA, rfl⟩
    · exact ⟨.DATA_IF_W, rfl⟩
  · intro t
    cases t <;> rfl
  · intro a b h
    cases a <;> cases b <;> first | rfl | exact absurd h (by decide)
  · decide

/-- C2, as stated, fails: `mistagged_field` is a value of the struct `SchemaField`
whose tag is `NAMED_FIELD` and whose union holds a `LiteralField`, so a field
tagged `NAMED_FIELD` need not carry a `NamedField`. -/
theorem schemaField_tag_not_tied_to_member :
    mistagged_field.type_ = .NAMED_FIELD ∧
      mistagged_field.field = .literal { bit_width := 6, literal_value := 0b100010 } ∧
      ¬ (∃ n : NamedField, mistagged_field.field = .named n) ∧
      mistagged_field.well_tagged = false ∧
      ¬ (∀ s : SchemaFieldStruct,
          (s.type_ = .NAMED_FIELD → ∃ n : NamedField, s.field = .named n) ∧
            (s.type_ = .LITERAL_FIELD → ∃ l : LiteralField, s.field = .literal l)) := by
  have h : ¬ (∃ n : NamedField, mistagged_field.field = .named n) := by
    rintro ⟨n, hn⟩
    cases hn
  refine ⟨rfl, rfl, h, rfl, ?_⟩
  intro hall
  exact h ((hall mistagged_field).1 rfl)

/-- C2, amended: the tag of a `SchemaField` is either `NAMED_FIELD` or
`LITERAL_FIELD` (the two are distinct and no third tag value exists), and its
union holds either a `NamedField` (semantic type, bit width) or a `LiteralField`
(bit width, literal value); the declaration does not tie the two, and for a schema
field whose tag names the member held there are exactly the Named case and the
Literal case: it is the struct value of exactly one well-tagged schema field. -/
theorem schemaField_well_tagged_alternatives (s : SchemaFieldStruct)
    (h : s.well_tagged = true) :
    SchemaFieldType.NAMED_FIELD ≠ SchemaFieldType.LITERAL_FIELD ∧
      Function.Injective SchemaFieldType.value ∧
      (∀ v : SchemaFieldTypeValue, ∃ tag : SchemaFieldType, tag.value = v) ∧
      (s.type_ = .NAMED_FIELD ∨ s.type_ = .LITERAL_FIELD) ∧
      ((∃ t w, s.field = .named { type_ := t, bit_width := w }) ∨
        (∃ w v, s.field = .literal { bit_width := w, literal_value := v })) ∧
      ((s.type_ = .NAMED_FIELD ∧ ∃ n : NamedField, s.field = .named n) ∨
        (s.type_ = .LITERAL_FIELD ∧ ∃ l : LiteralField, s.field = .literal l)) ∧
      ¬ ((s.type_ = .NAMED_FIELD ∧ ∃ n : NamedField, s.field = .named n) ∧
        (s.type_ = .LITERAL_FIELD ∧ ∃ l : LiteralField, s.field = .literal l)) ∧
      (∃ f : SchemaField, f.to_struct = s ∧ f.type_ = s.type_ ∧
        ∀ g : SchemaField, g.to_struct = s → g = f) ∧
      (∀ f : SchemaField, f.to_struct.well_tagged = true) := by
  refine ⟨by decide, ?_, ?_, ?_, ?_, ?_, ?_, ?_, ?_⟩
  · intro a b hab
    cases a <;> cases b <;> first | rfl | exact absurd hab (by decide)
  · intro v
    fin_cases v
    · exact ⟨.NAMED_FIELD, rfl⟩
    · exact ⟨.LITERAL_FIELD, rfl⟩
  · cases s with
    | mk tag u => cases tag <;> simp
  · cases s with
    | mk tag u =>
      cases u with
      | named n => exact Or.inl ⟨n.type_, n.bit_width, rfl⟩
      | literal l => exact Or.inr ⟨l.bit_width, l.literal_value, rfl⟩
  · cases s with
    | mk tag u =>
      cases tag with
      | NAMED_FIELD =>
        cases u with
        | named n => exact Or.inl ⟨rfl, n, rfl⟩
        | literal l => cases h
      | LITERAL_FIELD =>
        cases u with
        | named n => cases h
        | literal l => exact Or.inr ⟨rfl, l, rfl⟩
  · rintro ⟨⟨h1, -⟩, ⟨h2, -⟩⟩
    rw [h1] at h2
    cases h2
  · cases s with
    | mk tag u =>
      cases tag with
      | NAMED_FIELD =>
        cases u with
        | named n =>
          refine ⟨.named n, rfl, rfl, fun g hg => ?_⟩
          cases g with
          | named m =>
            simp only [SchemaField.to_struct, SchemaFieldStruct.mk.injEq,
              SchemaFieldUnion.named.injEq, true_and] at hg
            rw [hg]
          | literal m => cases hg
        | literal l => cases h
      | LITERAL_FIELD =>
        cases u with
        | named n => cases h
        | literal l =>
          refine ⟨.literal l, rfl, rfl, fun g hg => ?_⟩
          cases g with
          | named m => cases hg
          | literal m =>
            simp only [SchemaField.to_struct, SchemaFieldStruct.mk.injEq,
              SchemaFieldUnion.literal.injEq, true_and] at hg
            rw [hg]
  · intro f
    cases f <;> rfl

/-- Witness of C2 amended: the 6-bit opcode literal under the tag `LITERAL_FIELD`. -/
theorem schemaField_well_tagged_alternatives_witness :
    tagged_literal_field.well_tagged = true ∧
      ((tagged_literal_field.type_ = .NAMED_FIELD ∧
          ∃ n : NamedField, tagged_literal_field.field = .named n) ∨
        (tagged_literal_field.type_ = .LITERAL_FIELD ∧
          ∃ l : LiteralField, tagged_literal_field.field = .literal l)) :=
  ⟨rfl, (schemaField_well_tagged_alternatives tagged_literal_field rfl).2.2.2.2.2.1⟩

/-! ## What the record types do and do not bound -/

/-- C3, as stated, fails: `narrow_literal` has width 1 and value 2, and it is both
the identifying literal and a literal entry of `narrow_literal_schema`. -/
theorem literal_fit_not_invariant :
    narrow_literal.bit_width.val = 1 ∧ narrow_literal.literal_value.val = 2 ∧
      narrow_literal_schema.identifier_literal = narrow_literal ∧
      narrow_literal_schema.instruction_schema = [.literal narrow_literal] ∧
      narrow_literal ∈ narrow_literal_schema.literals ∧
      ¬ (narrow_literal.literal_value.val < 2 ^ narrow_literal.bit_width.val) ∧
      ¬ (∀ l : LiteralField, l.literal_value.val < 2 ^ l.bit_width.val) := by
  refine ⟨rfl, rfl, rfl, rfl, by decide, by decide, ?_⟩
  intro h
  exact absurd (h narrow_literal) (by decide)

/-- C3, amended: a literal value is an `unsigned char`, so it is below 2^8, and
it fits its bit width whenever that width is at least 8. -/
theorem literal_fits_of_byte_width (l : LiteralField) (h : 8 ≤ l.bit_width.val) :
    l.literal_value.val < 2 ^ 8 ∧ l.literal_value.val < 2 ^ l.bit_width.val := by
  have h1 : l.literal_value.val < 2 ^ 8 := l.literal_value.isLt
  exact ⟨h1, lt_of_lt_of_le h1 (Nat.pow_le_pow_right (by decide) h)⟩

/-- Witness of C3 amended: the literal of width 8 and value 255. -/
theorem literal_fits_of_byte_width_witness :
    8 ≤ (8 : UChar).val ∧ (255 : UChar).val < 2 ^ 8 ∧ (255 : UChar).val < 2 ^ (8 : UChar).val :=
  ⟨by decide, literal_fits_of_byte_width { bit_width := 8, literal_value := 255 } (by decide)⟩

/-- C4, as stated, fails: `narrow_parsed` has width 1 and value 2, and it is an
implied value of `narrow_parsed_schema`. -/
theorem parsed_fit_not_invariant :
    narrow_parsed.named_field.bit_width.val = 1 ∧ narrow_parsed.parsed_value.val = 2 ∧
      narrow_parsed ∈ narrow_parsed_schema.implied_values ∧
      ¬ (narrow_parsed.parsed_value.val < 2 ^ narrow_parsed.named_field.bit_width.val) ∧
      ¬ (∀ p : ParsedNamedField, p.parsed_value.val < 2 ^ p.named_field.bit_width.val) := by
  refine ⟨rfl, rfl, by decide, by decide, ?_⟩
  intro h
  exact absurd (h narrow_parsed) (by decide)

/-- C4, amended: a parsed value is an `unsigned char`, so it is below 2^8, and it
fits the declared width of its field whenever that width is at least 8. -/
theorem parsed_fits_of_byte_width (p : ParsedNamedField)
    (h : 8 ≤ p.named_field.bit_width.val) :
    p.parsed_value.val < 2 ^ 8 ∧ p.parsed_value.val < 2 ^ p.named_field.bit_width.val := by
  have h1 : p.parsed_value.val < 2 ^ 8 := p.parsed_value.isLt
  exact ⟨h1, lt_of_lt_of_le h1 (Nat.pow_le_pow_right (by decide) h)⟩

/-- Witness of C4 amended: the data byte of width 8 and value 255. -/
theorem parsed_fits_of_byte_width_witness :
    8 ≤ (8 : UChar).val ∧ (255 : UChar).val < 2 ^ 8 ∧ (255 : UChar).val < 2 ^ (8 : UChar).val :=
  ⟨by decide, parsed_fits_of_byte_width
    { named_field := { type_ := .DATA, bit_width := 8 }, parsed_value := 255 } (by decide)⟩

/-- C5, as stated, fails: a `NamedField` of width 9 and a `LiteralField` of width
12 are values of the data model, and neither width is in [1,8] or a multiple of 8. -/
theorem bit_width_not_restricted :
    nine_bit_named.bit_width.val = 9 ∧ twelve_bit_literal.bit_width.val = 12 ∧
      ¬ ((1 ≤ nine_bit_named.bit_width.val ∧ nine_bit_named.bit_width.val ≤ 8) ∨
          nine_bit_named.bit_width.val % 8 = 0) ∧
      ¬ ((1 ≤ twelve_bit_literal.bit_width.val ∧ twelve_bit_literal.bit_width.val ≤ 8) ∨
          twelve_bit_literal.bit_width.val % 8 = 0) := by
  refine ⟨rfl, rfl, by decide, by decide⟩

/-- C5, amended: the bit width of a `NamedField` and of a `LiteralField` is an
integer in [0,255], and every such integer is the width of some field of either
kind. -/
theorem bit_width_unsigned_char :
    (∀ n : NamedField, n.bit_width.val ≤ 255) ∧
      (∀ l : LiteralField, l.bit_width.val ≤ 255) ∧
      (∀ w : Fin 256, ∃ n : NamedField, n.bit_width.val = w.val) ∧
      (∀ w : Fin 256, ∃ l : LiteralField, l.bit_width.val = w.val) := by
  refine ⟨fun n => ?_, fun l => ?_, fun w => ?_, fun w => ?_⟩
  · have := n.bit_width.isLt
    omega
  · have := l.bit_width.isLt
    omega
  · exact ⟨{ type_ := .D, bit_width := w }, rfl⟩
  · exact ⟨{ bit_width := w, literal_value := 0 }, rfl⟩

/-- C7, as stated, fails: 11 is a value of `NamedFieldType` that lies in neither
the always-present set nor the conditional set, so the two sets do not cover
every value of the type. -/
theorem field_classes_miss_a_value :
    (11 : NamedFieldTypeValue) ∉ always_present_values ∧
      (11 : NamedFieldTypeValue) ∉ conditional_values ∧
      ¬ (∀ v : NamedFieldTypeValue,
          (v ∈ always_present_values ∧ v ∉ conditional_values) ∨
            (v ∉ always_present_values ∧ v ∈ conditional_values)) := by
  refine ⟨by decide, by decide, ?_⟩
  intro hall
  rcases hall 11 with h | h
  · exact absurd h.1 (by decide)
  · exact absurd h.2 (by decide)

/-- C7, amended: the always-present set {D, W, REG, MOD, RM} and the conditional
set {DISP_LO, DISP_HI, ADDR_LO, ADDR_HI, DATA, DATA_IF_W} are disjoint and
together hold exactly the eleven enumerators: a value of `NamedFieldType` lies in
at most one of the two sets, it lies in one of them exactly when it is an
enumerator (below 11), the always-present values are exactly those below 5 and
the conditional values exactly those from 5 to 10; each enumerator lies in
exactly one of the two sets. -/
theorem field_classes_partition_enumerators (v : NamedFieldTypeValue) :
    ¬ (v ∈ always_present_values ∧ v ∈ conditional_values) ∧
      ((v ∈ always_present_values ∨ v ∈ conditional_values) ↔ v.val < 11) ∧
      ((v ∈ always_present_values ∨ v ∈ conditional_values) ↔
        ∃ t ∈ NamedFieldType.all, t.value = v) ∧
      (v ∈ always_present_values ↔ v.val < 5) ∧
      (v ∈ conditional_values ↔ 5 ≤ v.val ∧ v.val < 11) ∧
      (∀ t ∈ NamedFieldType.all,
        ((t ∈ always_present ∧ t ∉ conditional) ∨ (t ∉ always_present ∧ t ∈ conditional)) ∧
          (t ∈ always_present ↔ t.value ∈ always_present_values) ∧
          (t ∈ conditional ↔ t.value ∈ conditional_values) ∧
          (t ∈ always_present ↔ t.ordinal < 5)) := by
  refine ⟨?_, ?_, ?_, ?_, ?_, by decide⟩
  · revert v; decide
  · revert v; decide
  · revert v; decide
  · revert v; decide
  · revert v; decide

/-! ## The concrete scenarios -/

/-- C8: matching the example schema against `0b10001001, 0b11000001` succeeds with
D=0, W=1, MOD=0b11, REG=0b000, RM=0b001 and nothing else, a byte length of 2, and
the cursor advanced by exactly 16 bits. -/
theorem register_mode_scenario (present : NamedFieldType → List ParsedNamedField → Bool)
    (mnemonic : String) (identifier : LiteralField) :
    try_match present (example_schema mnemonic identifier)
        { bytes := register_mode_bytes, offset := 0 } =
      (.ok { mnemonic := mnemonic
             fields :=
               [ { named_field := { type_ := .D, bit_width := 1 }, parsed_value := 0 },
                 { named_field := { type_ := .W, bit_width := 1 }, parsed_value := 1 },
                 { named_field := { type_ := .MOD, bit_width := 2 }, parsed_value := 0b11 },
                 { named_field := { type_ := .REG, bit_width := 3 }, parsed_value := 0b000 },
                 { named_field := { type_ := .RM, bit_width := 3 }, parsed_value := 0b001 } ]
             byte_length := 2 },
        { bytes := register_mode_bytes, offset := 16 }) := by
  rfl

/-- A read never changes the byte sequence of the cursor. -/
theorem read_bytes (c : BitCursor) (w : Nat) : (c.read w).2.bytes = c.bytes := by
  unfold BitCursor.read
  split <;> rfl

/-- The field loop never changes the byte sequence of the cursor. -/
theorem match_fields_bytes (present : NamedFieldType → List ParsedNamedField → Bool)
    (fields : List SchemaField) :
    ∀ (caps : List ParsedNamedField) (cur : BitCursor),
      (match_fields present fields caps cur).2.bytes = cur.bytes := by
  induction fields with
  | nil => intro caps cur; rfl
  | cons f rest ih =>
    intro caps cur
    cases f with
    | literal l =>
      have hb := read_bytes cur l.bit_width.val
      unfold match_fields
      rcases hr : cur.read l.bit_width.val with ⟨res, c⟩
      rw [hr] at hb
      cases res with
      | error e => exact hb
      | ok v =>
        dsimp only
        split
        · rw [ih]; exact hb
        · exact hb
    | named n =>
      have hb := read_bytes cur n.bit_width.val
      unfold match_fields
      split
      · rcases hr : cur.read n.bit_width.val with ⟨res, c⟩
        rw [hr] at hb
        cases res with
        | error e => exact hb
        | ok v =>
          dsimp only
          rw [ih]; exact hb
      · exact ih caps cur

/-- C10: if `try_match` fails, with either failure, the cursor after the call is
the cursor before the call; in particular its bit offset is unchanged, for every
presence predicate, schema, byte sequence and starting offset. -/
theorem try_match_atomic (present : NamedFieldType → List ParsedNamedField → Bool)
    (schema : InstructionSchema) (cur : BitCursor) (e : MatchFailure) (c : BitCursor)
    (h : try_match present schema cur = (.error e, c)) :
    c.offset = cur.offset ∧ c = cur := by
  have hb := match_fields_bytes present schema.instruction_schema [] cur
  unfold try_match at h
  rcases hr : match_fields present schema.instruction_schema [] cur with ⟨res, c2⟩
  rw [hr] at h hb
  cases res with
  | ok caps => simp at h
  | error e2 =>
    simp only [Prod.mk.injEq, Except.error.injEq] at h
    obtain ⟨-, hc⟩ := h
    subst hc
    cases cur with
    | mk bytes offset =>
      cases c2 with
      | mk bytes2 offset2 =>
        have hb2 : bytes2 = bytes := hb
        subst hb2
        exact ⟨rfl, rfl⟩

/-- Witness of C10: with the last displacement byte missing the field loop stops
24 bits into the stream, and `try_match` fails with `OutOfBits` with the cursor
back at its starting offset; with a wrong opcode the loop stops 6 bits in, and
`try_match` fails with `LiteralMismatch` with the cursor back at its start. -/
theorem try_match_atomic_witness :
    (match_fields conditional_presence example_fields_disp [] truncated_cursor).2.offset = 24 ∧
      (try_match conditional_presence scenario_schema_disp truncated_cursor).1 =
        .error .OutOfBits ∧
      (try_match conditional_presence scenario_schema_disp truncated_cursor).2.offset =
        truncated_cursor.offset ∧
      (match_fields conditional_presence example_fields_disp [] mismatch_cursor).2.offset = 14 ∧
      (try_match conditional_presence scenario_schema_disp mismatch_cursor).1 =
        .error .LiteralMismatch ∧
      (try_match conditional_presence scenario_schema_disp mismatch_cursor).2 =
        mismatch_cursor :=
  ⟨rfl, rfl,
    (try_match_atomic conditional_presence scenario_schema_disp truncated_cursor .OutOfBits
      truncated_cursor rfl).1,
    rfl, rfl,
    (try_match_atomic conditional_presence scenario_schema_disp mismatch_cursor
      .LiteralMismatch mismatch_cursor rfl).2⟩

/-! ## The byte-sum invariant and table construction -/

/-- A field boundary found from bit `s` on is not before `s`. -/
theorem le_boundary_from (ws : List Nat) : ∀ s m, s ≤ boundary_from ws s m := by
  induction ws with
  | nil => intro s m; exact le_refl _
  | cons w rest ih =>
    intro s m
    unfold boundary_from
    split
    · exact le_refl _
    · exact le_trans (Nat.le_add_right s w) (ih (s + w) m)

/-- When the layout starts at or after `m`, the boundary is the start itself. -/
theorem boundary_from_of_le (ws : List Nat) (s m : Nat) (h : m ≤ s) :
    boundary_from ws s m = s := by
  cases ws with
  | nil => rfl
  | cons w rest =>
    unfold boundary_from
    rw [if_pos h]

/-- The widths within byte `b` are the distance between the boundaries found for
the two ends of the byte. -/
theorem widths_in_byte_add_boundary (ws : List Nat) :
    ∀ s b, widths_in_byte ws s b + boundary_from ws s (8 * b) =
      boundary_from ws s (8 * b + 8) := by
  induction ws with
  | nil => intro s b; simp [widths_in_byte, boundary_from]
  | cons w rest ih =>
    intro s b
    have ih1 := ih (s + w) b
    unfold widths_in_byte
    by_cases h1 : s / 8 = b
    · have hlo : 8 * b ≤ s := by omega
      have hhi : ¬ (8 * b + 8 ≤ s) := by omega
      have e1 : boundary_from (w :: rest) s (8 * b) = s := boundary_from_of_le _ _ _ hlo
      have e2 : boundary_from (w :: rest) s (8 * b + 8) =
          boundary_from rest (s + w) (8 * b + 8) := by
        rw [boundary_from, if_neg hhi]
      have e3 : boundary_from rest (s + w) (8 * b) = s + w :=
        boundary_from_of_le _ _ _ (by omega)
      rw [if_pos h1, e1, e2]
      omega
    · by_cases h2 : s / 8 < b
      · have hlo : ¬ (8 * b ≤ s) := by omega
        have hhi : ¬ (8 * b + 8 ≤ s) := by omega
        have e1 : boundary_from (w :: rest) s (8 * b) = boundary_from rest (s + w) (8 * b) := by
          rw [boundary_from, if_neg hlo]
        have e2 : boundary_from (w :: rest) s (8 * b + 8) =
            boundary_from rest (s + w) (8 * b + 8) := by
          rw [boundary_from, if_neg hhi]
        rw [if_neg h1, e1, e2]
        omega
      · have hlo : 8 * b ≤ s := by omega
        have hhi : 8 * b + 8 ≤ s := by omega
        have e1 : boundary_from (w :: rest) s (8 * b) = s := boundary_from_of_le _ _ _ hlo
        have e2 : boundary_from (w :: rest) s (8 * b + 8) = s := boundary_from_of_le _ _ _ hhi
        have e3 : boundary_from rest (s + w) (8 * b) = s + w :=
          boundary_from_of_le _ _ _ (by omega)
        have e4 : boundary_from rest (s + w) (8 * b + 8) = s + w :=
          boundary_from_of_le _ _ _ (by omega)
        rw [if_neg h1, e1, e2]
        omega

/-- Every boundary is the end of a prefix of the fields. -/
theorem boundary_from_is_prefix (ws : List Nat) :
    ∀ s m, ∃ n, boundary_from ws s m = s + (ws.take n).sum := by
  induction ws with
  | nil => intro s m; exact ⟨0, rfl⟩
  | cons w rest ih =>
    intro s m
    unfold boundary_from
    split
    · exact ⟨0, by simp⟩
    · obtain ⟨n, hn⟩ := ih (s + w) m
      exact ⟨n + 1, by rw [hn, List.take_succ_cons, List.sum_cons]; omega⟩

/-- The end of a prefix of the fields is its own boundary. -/
theorem boundary_from_of_prefix (ws : List Nat) :
    ∀ s n, boundary_from ws s (s + (ws.take n).sum) = s + (ws.take n).sum := by
  induction ws with
  | nil => intro s n; simp [boundary_from]
  | cons w rest ih =>
    intro s n
    cases n with
    | zero => exact boundary_from_of_le _ _ _ (by simp)
    | succ k =>
      rw [List.take_succ_cons, List.sum_cons]
      unfold boundary_from
      split
      · omega
      · have := ih (s + w) k
        rw [← Nat.add_assoc]
        exact this

/-- A prefix of the fields is no wider than all of them. -/
theorem sum_take_le_sum (ws : List Nat) : ∀ n, (ws.take n).sum ≤ ws.sum := by
  induction ws with
  | nil => intro n; simp
  | cons w rest ih =>
    intro n
    cases n with
    | zero => simp
    | succ k =>
      rw [List.take_succ_cons, List.sum_cons, List.sum_cons]
      exact Nat.add_le_add_left (ih k) w

/-- Under the byte-sum invariant every byte boundary up to the last consumed byte
is a field boundary. -/
theorem boundary_from_of_byteSum (ws : List Nat) (h : ByteSumInvariant ws) :
    ∀ b, b ≤ consumed_bytes ws → boundary_from ws 0 (8 * b) = 8 * b := by
  intro b
  induction b with
  | zero => intro _; exact boundary_from_of_le _ _ _ (by simp)
  | succ k ih =>
    intro hk
    have h1 := h k (by omega)
    have h2 := widths_in_byte_add_boundary ws 0 k
    have h3 := ih (by omega)
    have e : 8 * (k + 1) = 8 * k + 8 := by ring
    rw [e]
    omega

/-- The byte-sum invariant says the same as: the widths sum to whole bytes and
every byte boundary is a field boundary. -/
theorem byteSum_iff_byteAligned (ws : List Nat) : ByteSumInvariant ws ↔ ByteAligned ws := by
  constructor
  · intro h
    have hb := boundary_from_of_byteSum ws h
    have hend : 8 * consumed_bytes ws ≤ ws.sum := by
      obtain ⟨n, hn⟩ := boundary_from_is_prefix ws 0 (8 * consumed_bytes ws)
      have := hb (consumed_bytes ws) (le_refl _)
      have := sum_take_le_sum ws n
      omega
    have hcb : consumed_bytes ws = (ws.sum + 7) / 8 := rfl
    refine ⟨by omega, fun k hk => ?_⟩
    obtain ⟨n, hn⟩ := boundary_from_is_prefix ws 0 (8 * k)
    have := hb k (by omega)
    exact ⟨n, by omega⟩
  · rintro ⟨hmod, hbound⟩ b hb
    have hcb : consumed_bytes ws = (ws.sum + 7) / 8 := rfl
    obtain ⟨n1, hn1⟩ := hbound b (by omega)
    obtain ⟨n2, hn2⟩ := hbound (b + 1) (by omega)
    have e1 := boundary_from_of_prefix ws 0 n1
    have e2 := boundary_from_of_prefix ws 0 n2
    have e3 := widths_in_byte_add_boundary ws 0 b
    rw [Nat.zero_add, hn1] at e1
    rw [Nat.zero_add, hn2] at e2
    have e : 8 * (b + 1) = 8 * b + 8 := by ring
    rw [e] at e2
    omega

/-- The executable check decides the byte-sum invariant. -/
theorem byte_sum_ok_iff (ws : List Nat) : byte_sum_ok ws = true ↔ ByteSumInvariant ws := by
  unfold byte_sum_ok ByteSumInvariant
  rw [List.all_eq_true]
  constructor
  · intro h b hb
    exact beq_iff_eq.mp (h b (List.mem_range.mpr hb))
  · intro h b hb
    exact beq_iff_eq.mpr (h b (List.mem_range.mp hb))

/-- A schema that passes validation satisfies the byte-sum invariant. -/
theorem byteSum_of_validate (s : InstructionSchema) (h : validate_schema s = .ok ()) :
    ByteSumInvariant (field_widths s.instruction_schema) := by
  unfold validate_schema at h
  split at h
  · rename_i hc
    rw [Bool.and_eq_true] at hc
    exact (byte_sum_ok_iff _).mp hc.1
  · cases h

/-- A schema that violates the byte-sum invariant fails validation. -/
theorem validate_of_not_byteSum (s : InstructionSchema)
    (h : ¬ ByteSumInvariant (field_widths s.instruction_schema)) :
    validate_schema s = .error .InvalidSchema := by
  unfold validate_schema
  split
  · rename_i hc
    rw [Bool.and_eq_true] at hc
    exact absurd ((byte_sum_ok_iff _).mp hc.1) h
  · rfl

/-- Table construction fails with `InvalidSchema` as soon as one schema fails
validation. -/
theorem build_table_error (schemas : List InstructionSchema) (s : InstructionSchema)
    (hs : s ∈ schemas) (hv : validate_schema s = .error .InvalidSchema) :
    build_table schemas = .error .InvalidSchema := by
  induction schemas with
  | nil => cases hs
  | cons x rest ih =>
    unfold build_table
    rcases hx : validate_schema x with e | u
    · cases e; rfl
    · have hne : s ≠ x := by
        intro heq
        rw [heq, hx] at hv
        cases hv
      have hmem : s ∈ rest := by
        rcases List.mem_cons.mp hs with h1 | h1
        · exact absurd h1 hne
        · exact h1
      dsimp only
      rw [ih hmem]

/-- A constructed table is the given schemas, each of which passed validation. -/
theorem build_table_ok (schemas : List InstructionSchema) :
    ∀ t, build_table schemas = .ok t →
      t = schemas ∧ ∀ s ∈ schemas, validate_schema s = .ok () := by
  induction schemas with
  | nil =>
    intro t h
    unfold build_table at h
    cases h
    exact ⟨rfl, fun s hs => by cases hs⟩
  | cons x rest ih =>
    intro t h
    unfold build_table at h
    rcases hx : validate_schema x with e | u
    · rw [hx] at h; cases h
    · rw [hx] at h
      dsimp only at h
      rcases hr : build_table rest with e2 | t2
      · rw [hr] at h; cases h
      · rw [hr] at h
        dsimp only at h
        cases h
        obtain ⟨h1, h2⟩ := ih t2 hr
        refine ⟨by rw [h1], fun s hs => ?_⟩
        rcases List.mem_cons.mp hs with h3 | h3
        · rw [h3]; exact hx
        · exact h2 s h3

/-- Every literal of a schema of a constructed table fits its bit width. -/
theorem literals_fit_of_build_table (schemas t : List InstructionSchema)
    (h : build_table schemas = .ok t) :
    ∀ s ∈ t, ∀ l ∈ s.literals, l.literal_value.val < 2 ^ l.bit_width.val := by
  obtain ⟨h1, h2⟩ := build_table_ok schemas t h
  subst h1
  intro s hs l hl
  have hv := h2 s hs
  unfold validate_schema at hv
  split at hv
  · rename_i hc
    rw [Bool.and_eq_true, List.all_eq_true] at hc
    exact of_decide_eq_true (hc.2 l hl)
  · cases hv

/-- C6: table construction rejects with `InvalidSchema` every list holding a
schema whose field widths do not sum to exactly 8 within each consumed byte; so
every schema of a constructed table satisfies that invariant, which says the same
as: the widths sum to whole bytes with a field boundary on every byte boundary. -/
theorem build_table_byte_sum (schemas : List InstructionSchema) (s : InstructionSchema)
    (hs : s ∈ schemas) :
    (¬ ByteSumInvariant (field_widths s.instruction_schema) →
        build_table schemas = .error .InvalidSchema) ∧
      (¬ ByteAligned (field_widths s.instruction_schema) →
        build_table schemas = .error .InvalidSchema) ∧
      (∀ t, build_table schemas = .ok t →
        s ∈ t ∧ ∀ x ∈ t,
          ByteSumInvariant (field_widths x.instruction_schema) ∧
            ByteAligned (field_widths x.instruction_schema)) := by
  refine ⟨fun h => ?_, fun h => ?_, fun t ht => ?_⟩
  · exact build_table_error schemas s hs (validate_of_not_byteSum s h)
  · exact build_table_error schemas s hs
      (validate_of_not_byteSum s (fun h2 => h ((byteSum_iff_byteAligned _).mp h2)))
  · obtain ⟨h1, h2⟩ := build_table_ok schemas t ht
    subst h1
    refine ⟨hs, fun x hx => ?_⟩
    have h3 := byteSum_of_validate x (h2 x hx)
    exact ⟨h3, (byteSum_iff_byteAligned _).mp h3⟩

/-- Witness of C6: the table of the example schema alone is constructed and the
schema satisfies the invariant, while a table holding the straddling schema is
rejected. -/
theorem build_table_byte_sum_witness :
    build_table [example_schema "mov" { bit_width := 6, literal_value := 0b100010 }] =
        .ok [example_schema "mov" { bit_width := 6, literal_value := 0b100010 }] ∧
      ByteSumInvariant (field_widths example_fields) ∧
      build_table
          [example_schema "mov" { bit_width := 6, literal_value := 0b100010 },
            straddling_schema] = .error .InvalidSchema :=
  ⟨rfl,
    (((build_table_byte_sum
      [example_schema "mov" { bit_width := 6, literal_value := 0b100010 }]
      (example_schema "mov" { bit_width := 6, literal_value := 0b100010 })
      (List.mem_singleton.mpr rfl)).2.2 _ rfl).2 _ (List.mem_singleton.mpr rfl)).1,
    (build_table_byte_sum
      [example_schema "mov" { bit_width := 6, literal_value := 0b100010 }, straddling_schema]
      straddling_schema (by simp)).1
      (fun h => absurd (h 0 (by decide)) (by decide))⟩


/-! ## The example schema as a value of the data model -/

/-- C12: the specification's example schema is a sequence of six `SchemaField`
values; its literal fits its width (34 < 2^6), every bit width lies in [1,8],
the widths are 6,1,1,2,3,3 and sum to 16, and the sequence splits on a field
boundary into two groups of widths 6+1+1 and 2+3+3, each summing to 8. -/
theorem example_fields_well_formed :
    example_fields =
        [ SchemaField.literal { bit_width := 6, literal_value := 0b100010 },
          SchemaField.named { type_ := .D, bit_width := 1 },
          SchemaField.named { type_ := .W, bit_width := 1 },
          SchemaField.named { type_ := .MOD, bit_width := 2 },
          SchemaField.named { type_ := .REG, bit_width := 3 },
          SchemaField.named { type_ := .RM, bit_width := 3 } ] ∧
      example_fields.length = 6 ∧
      (∀ l : LiteralField, SchemaField.literal l ∈ example_fields →
        l.bit_width.val = 6 ∧ l.literal_value.val = 34 ∧
          l.literal_value.val < 2 ^ l.bit_width.val) ∧
      (∀ f ∈ example_fields, 1 ≤ f.bit_width.val ∧ f.bit_width.val ≤ 8) ∧
      field_widths example_fields = [6, 1, 1, 2, 3, 3] ∧
      (field_widths example_fields).sum = 16 ∧
      example_fields.take 3 ++ example_fields.drop 3 = example_fields ∧
      field_widths (example_fields.take 3) = [6, 1, 1] ∧
      (field_widths (example_fields.take 3)).sum = 8 ∧
      field_widths (example_fields.drop 3) = [2, 3, 3] ∧
      (field_widths (example_fields.drop 3)).sum = 8 := by
  refine ⟨rfl, rfl, ?_, ?_, rfl, rfl, rfl, rfl, rfl, rfl, rfl⟩
  · intro l hl
    have h : l = { bit_width := 6, literal_value := 0b100010 } := by
      simpa [example_fields] using hl
    subst h
    exact ⟨rfl, rfl, by decide⟩
  · decide

/-! ## Eight-bit members and the fits-in-width constraint -/

/-- C13: because the members are `unsigned char`, a `LiteralField` or
`ParsedNamedField` whose bit width is at least 8 always has its value below
2^bit_width, so a field that violates the constraint has a bit width below 8;
and for every width `w` in [1,8] every value below 2^w is the value of some
`LiteralField` and of some `ParsedNamedField` of width `w`. -/
theorem fit_can_fail_only_below_byte_width (l : LiteralField) (p : ParsedNamedField)
    (w v : Nat) (hw1 : 1 ≤ w) (hw8 : w ≤ 8) (hv : v < 2 ^ w) :
    l.bit_width.val ≤ 255 ∧ l.literal_value.val ≤ 255 ∧ p.parsed_value.val ≤ 255 ∧
      (8 ≤ l.bit_width.val → l.literal_value.val < 2 ^ l.bit_width.val) ∧
      (8 ≤ p.named_field.bit_width.val →
        p.parsed_value.val < 2 ^ p.named_field.bit_width.val) ∧
      (¬ (l.literal_value.val < 2 ^ l.bit_width.val) → l.bit_width.val < 8) ∧
      (¬ (p.parsed_value.val < 2 ^ p.named_field.bit_width.val) →
        p.named_field.bit_width.val < 8) ∧
      (∃ l2 : LiteralField, l2.bit_width.val = w ∧ l2.literal_value.val = v) ∧
      (∃ p2 : ParsedNamedField,
        p2.named_field.bit_width.val = w ∧ p2.parsed_value.val = v) := by
  have hl : l.literal_value.val < 2 ^ 8 := l.literal_value.isLt
  have hp : p.parsed_value.val < 2 ^ 8 := p.parsed_value.isLt
  have hb : l.bit_width.val < 256 := l.bit_width.isLt
  have hmono : ∀ k : Nat, 8 ≤ k → 2 ^ 8 ≤ 2 ^ k := fun k hk =>
    Nat.pow_le_pow_right (by decide) hk
  have hv8 : v < 256 := lt_of_lt_of_le hv (Nat.pow_le_pow_right (by decide) hw8)
  have hw : w < 256 := by omega
  refine ⟨by omega, by omega, by omega, ?_, ?_, ?_, ?_, ?_, ?_⟩
  · intro h
    exact lt_of_lt_of_le hl (hmono _ h)
  · intro h
    exact lt_of_lt_of_le hp (hmono _ h)
  · intro h
    by_contra hc
    exact h (lt_of_lt_of_le hl (hmono _ (by omega)))
  · intro h
    by_contra hc
    exact h (lt_of_lt_of_le hp (hmono _ (by omega)))
  · exact ⟨{ bit_width := ⟨w, hw⟩, literal_value := ⟨v, hv8⟩ }, rfl, rfl⟩
  · exact ⟨{ named_field := { type_ := .D, bit_width := ⟨w, hw⟩ }, parsed_value := ⟨v, hv8⟩ },
      rfl, rfl⟩

/-- Witness of C13: a literal of width 8 and value 255, a parsed field of width 1
and value 2, and the value 5 at width 3. -/
theorem fit_can_fail_only_below_byte_width_witness :
    1 ≤ 3 ∧ 3 ≤ 8 ∧ 5 < 2 ^ 3 ∧
      (8 ≤ (8 : UChar).val → (255 : UChar).val < 2 ^ (8 : UChar).val) ∧
      (¬ (narrow_parsed.parsed_value.val < 2 ^ narrow_parsed.named_field.bit_width.val) →
        narrow_parsed.named_field.bit_width.val < 8) ∧
      (∃ l2 : LiteralField, l2.bit_width.val = 3 ∧ l2.literal_value.val = 5) :=
  ⟨by decide, by decide, by decide,
    (fit_can_fail_only_below_byte_width { bit_width := 8, literal_value := 255 } narrow_parsed
      3 5 (by decide) (by decide) (by decide)).2.2.2.1,
    (fit_can_fail_only_below_byte_width { bit_width := 8, literal_value := 255 } narrow_parsed
      3 5 (by decide) (by decide) (by decide)).2.2.2.2.2.2.1,
    (fit_can_fail_only_below_byte_width { bit_width := 8, literal_value := 255 } narrow_parsed
      3 5 (by decide) (by decide) (by decide)).2.2.2.2.2.2.2.1⟩

/-! ## The entry point -/

/-- C14: `main` has an empty body: for every invocation it returns exit status 0
and leaves the state as it found it, so it constructs no schema table, reads no
input and writes no output; being a total function, it terminates. -/
theorem main_does_nothing (s : ProgramState) :
    (main s).1 = 0 ∧ (main s).2 = s ∧ (main s).2.tables = s.tables ∧
      (main s).2.input = s.input ∧ (main s).2.output = s.output := by
  exact ⟨rfl, rfl, rfl, rfl, rfl⟩


/-! ## Round trip through the encoder -/

end NewOrg
